import Mathlib

/-!
Shallow embedding of the go-bundler-client repository (client.go) and proofs
of the specification claims about it.

Conventions of the embedding:
  byte strings are lists of naturals (each byte below 256);
  Go big.Int values are Lean Int, and a nil *big.Int or *hexutil.Big is none;
  Go multi-returns (value, error) become Except RpcError values, where the
  error constructor corresponds to a nil pointer result alongside the error;
  the JSON-RPC transport (rpc.Client.CallContext of go-ethereum) is a function
  from a request to either an error or an already-parsed JSON result shape.
-/

/-- Hexadecimal digit table of package encoding/hex (hextable), lowercase. -/
def hexDigitChar : Nat → Char
  | 0 => '0' | 1 => '1' | 2 => '2' | 3 => '3' | 4 => '4' | 5 => '5' | 6 => '6' | 7 => '7'
  | 8 => '8' | 9 => '9' | 10 => 'a' | 11 => 'b' | 12 => 'c' | 13 => 'd' | 14 => 'e'
  | _ => 'f'

/-- Value of one hexadecimal character, as in encoding/hex fromHexChar and
hexutil decodeNibble: decimal digits, lowercase and uppercase letters are
accepted; anything else is invalid. -/
def hexCharVal (c : Char) : Option Nat :=
  if 48 ≤ c.toNat ∧ c.toNat ≤ 57 then some (c.toNat - 48)
  else if 97 ≤ c.toNat ∧ c.toNat ≤ 102 then some (c.toNat - 87)
  else if 65 ≤ c.toNat ∧ c.toNat ≤ 70 then some (c.toNat - 55)
  else none

theorem hexCharVal_hexDigitChar {d : Nat} (h : d < 16) :
    hexCharVal (hexDigitChar d) = some d := by
  interval_cases d <;> decide

theorem hexDigitChar_ne_zero_char {d : Nat} (h : d < 16) (h0 : d ≠ 0) :
    hexDigitChar d ≠ '0' := by
  interval_cases d <;> simp_all <;> decide

/-- Hex encoding of a byte string, two characters per byte, high nibble first
(the loop of encoding/hex Encode). -/
def bytesToHexChars : List Nat → List Char
  | [] => []
  | b :: rest => hexDigitChar (b / 16) :: hexDigitChar (b % 16) :: bytesToHexChars rest

/-- Strict pairwise hex decoding: fails on an invalid character or on a
dangling single character (odd length), as hexutil decode does after its
checks. -/
def hexPairsDecode : List Char → Option (List Nat)
  | [] => some []
  | [_] => none
  | c1 :: c2 :: rest =>
    match hexCharVal c1, hexCharVal c2, hexPairsDecode rest with
    | some hi, some lo, some tl => some ((16 * hi + lo) :: tl)
    | _, _, _ => none

/-- Lenient pairwise hex decoding of encoding/hex DecodeString as used through
common.Hex2Bytes: on a bad character or a dangling character it returns the
bytes successfully decoded so far and drops the rest. -/
def hex2Bytes : List Char → List Nat
  | c1 :: c2 :: rest =>
    match hexCharVal c1, hexCharVal c2 with
    | some hi, some lo => (16 * hi + lo) :: hex2Bytes rest
    | _, _ => []
  | _ => []

theorem bytesToHexChars_length (b : List Nat) :
    (bytesToHexChars b).length = 2 * b.length := by
  induction b with
  | nil => rfl
  | cons x rest ih => simp [bytesToHexChars, ih]; ring

theorem hexPairsDecode_bytesToHexChars (b : List Nat) (hb : ∀ x ∈ b, x < 256) :
    hexPairsDecode (bytesToHexChars b) = some b := by
  induction b with
  | nil => rfl
  | cons x rest ih =>
    have hx : x < 256 := hb x (by simp)
    have hhi : x / 16 < 16 := by omega
    have hlo : x % 16 < 16 := by omega
    have hrest : hexPairsDecode (bytesToHexChars rest) = some rest :=
      ih fun y hy => hb y (by simp [hy])
    cases rest with
    | nil =>
      simp [bytesToHexChars, hexPairsDecode, hexCharVal_hexDigitChar hhi,
        hexCharVal_hexDigitChar hlo]
      omega
    | cons y t =>
      simp only [bytesToHexChars, hexPairsDecode, hexCharVal_hexDigitChar hhi,
        hexCharVal_hexDigitChar hlo] at *
      rw [hrest]
      simp
      omega

theorem hexPairsDecode_length :
    ∀ (l : List Char) (b : List Nat), hexPairsDecode l = some b → l.length = 2 * b.length
  | [], b, h => by
    simp [hexPairsDecode] at h
    subst h
    simp
  | [c], b, h => by
    simp [hexPairsDecode] at h
  | c1 :: c2 :: rest, b, h => by
    simp only [hexPairsDecode] at h
    cases h1 : hexCharVal c1 <;> cases h2 : hexCharVal c2 <;>
        cases h3 : hexPairsDecode rest <;> simp [h1, h2, h3] at h
    rename_i tl
    have := hexPairsDecode_length rest tl h3
    subst h
    simp [this]
    ring

/-- Decode a list of hex characters to their digit values in order, failing on
the first invalid character (the nibble loop of hexutil Big UnmarshalText). -/
def parseHexDigits : List Char → Option (List Nat)
  | [] => some []
  | c :: rest =>
    match hexCharVal c, parseHexDigits rest with
    | some d, some ds => some (d :: ds)
    | _, _ => none

theorem parseHexDigits_map (l : List Nat) (hl : ∀ d ∈ l, d < 16) :
    parseHexDigits (l.map hexDigitChar) = some l := by
  induction l with
  | nil => rfl
  | cons d rest ih =>
    simp only [List.map_cons, parseHexDigits, hexCharVal_hexDigitChar (hl d (by simp)),
      ih fun y hy => hl y (by simp [hy])]

/-- Minimal lowercase base-16 digit string of a natural number, most
significant digit first, as produced by the big.Int Text method with base 16;
the representation of zero is the single digit 0. -/
def natHexChars (n : Nat) : List Char :=
  if n = 0 then ['0'] else ((Nat.digits 16 n).map hexDigitChar).reverse

/-- hexutil EncodeBig: the 0x-prefixed minimal hex representation of a big
integer, with a minus sign in front for negative values; zero encodes to 0x0.
Strings are embedded as their character lists. -/
def EncodeBig (v : Int) : List Char :=
  if v < 0 then '-' :: '0' :: 'x' :: natHexChars v.natAbs
  else '0' :: 'x' :: natHexChars v.toNat

/-- hexutil Big UnmarshalText via checkNumberText: the input must carry the
0x or 0X prefix, be nonempty after it, must not start with a zero digit
unless it is exactly one digit, must have at most 64 hex digits (256 bits),
and every character must be a valid hex digit; the value is the nonnegative
integer denoted by the digits. -/
def decodeHexBigChars (l : List Char) : Option Int :=
  match l with
  | c0 :: c1 :: rest =>
    if c0 = '0' ∧ (c1 = 'x' ∨ c1 = 'X') then
      if rest.length = 0 then none
      else if 1 < rest.length ∧ rest.head? = some '0' then none
      else if 64 < rest.length then none
      else
        match parseHexDigits rest with
        | some ds => some (Int.ofNat (Nat.ofDigits 16 ds.reverse))
        | none => none
    else none
  | _ => none

/-- String-level wrapper of the hexutil Big text decoder. -/
def decodeHexBig (s : String) : Option Int :=
  decodeHexBigChars s.data

theorem digits16_length_le {n : Nat} (h : n < 2 ^ 256) :
    (Nat.digits 16 n).length ≤ 64 := by
  rcases Nat.eq_zero_or_pos n with rfl | hp
  · simp
  · by_contra hc
    push_neg at hc
    have h1 : (16 : Nat) ^ (Nat.digits 16 n).length ≤ 16 * n :=
      Nat.base_pow_length_digits_le 16 n (by norm_num) (by omega)
    have h2 : (16 : Nat) ^ 65 ≤ 16 ^ (Nat.digits 16 n).length :=
      Nat.pow_le_pow_right (by norm_num) (by omega)
    have h3 : (16 : Nat) ^ 65 = 16 * 16 ^ 64 := by ring
    have h4 : (16 : Nat) ^ 64 ≤ n := by
      have := le_trans h2 h1
      omega
    have h5 : (2 : Nat) ^ 256 = 16 ^ 64 := by norm_num
    omega

theorem decodeHexBigChars_natHexChars {n : Nat} (h : n < 2 ^ 256) :
    decodeHexBigChars ('0' :: 'x' :: natHexChars n) = some (Int.ofNat n) := by
  rcases Nat.eq_zero_or_pos n with rfl | hp
  · rfl
  · have hne : n ≠ 0 := by omega
    have hnil : Nat.digits 16 n ≠ [] := Nat.digits_ne_nil_iff_ne_zero.mpr hne
    rcases List.eq_nil_or_concat (Nat.digits 16 n) with hd | ⟨init, last, hd⟩
    · exact absurd hd hnil
    have hd' : Nat.digits 16 n = init ++ [last] := by
      simpa [List.concat_eq_append] using hd
    have hlast_mem : last ∈ Nat.digits 16 n := by
      rw [hd']
      simp
    have hlast_lt : last < 16 := Nat.digits_lt_base (by norm_num) hlast_mem
    have hlast_ne : last ≠ 0 := by
      have hgl := Nat.getLast_digit_ne_zero 16 hne
      have : (Nat.digits 16 n).getLast (Nat.digits_ne_nil_iff_ne_zero.mpr hne) = last := by
        simp [hd']
      omega
    have hchar : hexDigitChar last ≠ '0' := hexDigitChar_ne_zero_char hlast_lt hlast_ne
    have hrest : natHexChars n = hexDigitChar last :: (init.map hexDigitChar).reverse := by
      simp [natHexChars, hne, hd']
    have hlen : ((Nat.digits 16 n).map hexDigitChar).reverse.length ≤ 64 := by
      simpa using digits16_length_le h
    have hlen' : (hexDigitChar last :: (init.map hexDigitChar).reverse).length ≤ 64 := by
      rw [← hrest]
      simpa [natHexChars, hne] using hlen
    have hparse : parseHexDigits (natHexChars n) = some ((Nat.digits 16 n).reverse) := by
      rw [natHexChars, if_neg hne, ← List.map_reverse]
      exact parseHexDigits_map _ fun d hdm =>
        Nat.digits_lt_base (by norm_num) (List.mem_reverse.mp hdm)
    rw [decodeHexBigChars]
    rw [hrest]
    simp only [List.length_cons]
    rw [if_pos (by simp)]
    rw [if_neg (by simp)]
    rw [if_neg (by
      intro hcon
      exact hchar (by simpa using hcon.2))]
    have hlen2 : (init.map hexDigitChar).reverse.length + 1 ≤ 64 := by
      simpa using hlen'
    rw [if_neg (by omega)]
    rw [← hrest, hparse]
    simp [Nat.ofDigits_digits]

/-- Round trip of the big-integer hex wire encoding: every nonnegative value
below 2 to the 256 survives EncodeBig followed by the hexutil text decoder. -/
theorem decodeHexBigChars_EncodeBig {v : Int} (h0 : 0 ≤ v) (h : v < 2 ^ 256) :
    decodeHexBigChars (EncodeBig v) = some v := by
  have hnn : ¬ v < 0 := by omega
  have htn : v.toNat < 2 ^ 256 := by omega
  rw [EncodeBig, if_neg hnn, decodeHexBigChars_natHexChars htn]
  congr 1
  exact Int.toNat_of_nonneg h0

/-- hexutil Bytes MarshalText: 0x followed by two hex characters per byte. -/
def encodeBytesChars (b : List Nat) : List Char :=
  '0' :: 'x' :: bytesToHexChars b

/-- hexutil Bytes UnmarshalText: the 0x or 0X prefix is required, the digit
count must be even and every character a valid hex digit. -/
def decodeHexBytesChars (l : List Char) : Option (List Nat) :=
  match l with
  | c0 :: c1 :: rest =>
    if c0 = '0' ∧ (c1 = 'x' ∨ c1 = 'X') then hexPairsDecode rest else none
  | _ => none

/-- hexutil UnmarshalFixedText for an n byte target (common.Address has n 20,
common.Hash has n 32): prefix required, exactly 2 n hex digits, all valid. -/
def decodeFixedBytesChars (n : Nat) (l : List Char) : Option (List Nat) :=
  match l with
  | c0 :: c1 :: rest =>
    if c0 = '0' ∧ (c1 = 'x' ∨ c1 = 'X') then
      if rest.length = 2 * n then hexPairsDecode rest else none
    else none
  | _ => none

/-- String-level wrapper of the fixed-length hex decoder. -/
def decodeFixedBytes (n : Nat) (s : String) : Option (List Nat) :=
  decodeFixedBytesChars n s.data

theorem decodeHexBytesChars_encodeBytesChars (b : List Nat) (hb : ∀ x ∈ b, x < 256) :
    decodeHexBytesChars (encodeBytesChars b) = some b := by
  simp [decodeHexBytesChars, encodeBytesChars, hexPairsDecode_bytesToHexChars b hb]

theorem decodeFixedBytesChars_encodeBytesChars (b : List Nat) (n : Nat)
    (hn : b.length = n) (hb : ∀ x ∈ b, x < 256) :
    decodeFixedBytesChars n (encodeBytesChars b) = some b := by
  simp [decodeFixedBytesChars, encodeBytesChars, bytesToHexChars_length, hn,
    hexPairsDecode_bytesToHexChars b hb]

theorem decodeFixedBytesChars_length {n : Nat} {l : List Char} {b : List Nat}
    (h : decodeFixedBytesChars n l = some b) : b.length = n := by
  rcases l with _ | ⟨c0, _ | ⟨c1, rest⟩⟩
  · simp [decodeFixedBytesChars] at h
  · simp [decodeFixedBytesChars] at h
  simp only [decodeFixedBytesChars] at h
  by_cases hpre : c0 = '0' ∧ (c1 = 'x' ∨ c1 = 'X')
  · rw [if_pos hpre] at h
    by_cases hlen : rest.length = 2 * n
    · rw [if_pos hlen] at h
      have := hexPairsDecode_length rest b h
      omega
    · rw [if_neg hlen] at h
      exact absurd h (by simp)
  · rw [if_neg hpre] at h
    exact absurd h (by simp)

theorem decodeFixedBytes_length {n : Nat} {s : String} {b : List Nat}
    (h : decodeFixedBytes n s = some b) : b.length = n :=
  decodeFixedBytesChars_length h

/-- common.BytesToHash: keep only the trailing 32 bytes and pad with zero
bytes on the left up to the fixed hash length. -/
def bytesToHash (b : List Nat) : List Nat :=
  let c := if 32 < b.length then b.drop (b.length - 32) else b
  List.replicate (32 - c.length) 0 ++ c

theorem bytesToHash_length (b : List Nat) : (bytesToHash b).length = 32 := by
  rw [bytesToHash]
  by_cases h : 32 < b.length <;> simp [h] <;> omega

/-- common.HexToHash, which is common.FromHex followed by BytesToHash: strip
an optional 0x or 0X prefix, put one zero character in front when the digit
count is odd, decode leniently and fit the bytes into a 32 byte hash. -/
def hexToHash (s : String) : List Nat :=
  let cs := s.data
  let cs1 := if cs.take 2 = ['0', 'x'] ∨ cs.take 2 = ['0', 'X'] then cs.drop 2 else cs
  let cs2 := if cs1.length % 2 = 1 then '0' :: cs1 else cs1
  bytesToHash (hex2Bytes cs2)

theorem hexToHash_length (s : String) : (hexToHash s).length = 32 :=
  bytesToHash_length _

/-- A byte string (a Go byte slice). -/
abbrev Bytes := List Nat

/-- common.Address, a 20 byte value; the length is stated where needed. -/
abbrev Address := List Nat

/-- common.Hash, a 32 byte value; the length is stated where needed. -/
abbrev Hash := List Nat

/-- The all-zero address. -/
def zeroAddress : Address := List.replicate 20 0

/-- The all-zero hash. -/
def zeroHash : Hash := List.replicate 32 0

/-- A possibly-nil *hexutil.Big, holding a big integer when not nil. -/
abbrev HexBig := Option Int

/-- The ToInt method on a possibly-nil *hexutil.Big: a plain pointer cast to
*big.Int, so a nil receiver gives a nil result and otherwise the integer
value is passed through unchanged. -/
def HexBig.ToInt (b : HexBig) : Option Int := b

/-- userop.UserOperation of the stackup bundler package: the canonical user
operation, numeric fields as possibly-nil big integers. -/
structure Userop.UserOperation where
  Sender : Address
  Nonce : Option Int
  InitCode : Bytes
  CallData : Bytes
  CallGasLimit : Option Int
  VerificationGasLimit : Option Int
  PreVerificationGas : Option Int
  MaxFeePerGas : Option Int
  MaxPriorityFeePerGas : Option Int
  PaymasterAndData : Bytes
  Signature : Bytes
deriving DecidableEq

/-- The wire-shaped UserOperation defined in client.go: numeric fields as
*hexutil.Big (none is a nil pointer), byte fields as hexutil.Bytes. -/
structure UserOperation where
  Sender : Address
  Nonce : HexBig
  InitCode : Bytes
  CallData : Bytes
  CallGasLimit : HexBig
  VerificationGasLimit : HexBig
  PreVerificationGas : HexBig
  MaxFeePerGas : HexBig
  MaxPriorityFeePerGas : HexBig
  PaymasterAndData : Bytes
  Signature : Bytes
deriving DecidableEq

/-- The ToUserOperation method of client.go; the Go receiver is a pointer, so
the receiver is an Option and a nil receiver returns nil. -/
def UserOperation.ToUserOperation : Option UserOperation → Option Userop.UserOperation
  | none => none
  | some uo => some {
      Sender := uo.Sender
      Nonce := uo.Nonce.ToInt
      InitCode := uo.InitCode
      CallData := uo.CallData
      CallGasLimit := uo.CallGasLimit.ToInt
      VerificationGasLimit := uo.VerificationGasLimit.ToInt
      PreVerificationGas := uo.PreVerificationGas.ToInt
      MaxFeePerGas := uo.MaxFeePerGas.ToInt
      MaxPriorityFeePerGas := uo.MaxPriorityFeePerGas.ToInt
      PaymasterAndData := uo.PaymasterAndData
      Signature := uo.Signature }

/-- A JSON value in the positions this client reads and writes for the wire
user operation fields: a string or null. -/
inductive JsonVal where
  | null
  | str (s : String)
deriving DecidableEq

/-- The JSON object shape of the wire UserOperation, one member per struct
field, named by the json tags of client.go. -/
structure UserOperationJSON where
  sender : JsonVal
  nonce : JsonVal
  initCode : JsonVal
  callData : JsonVal
  callGasLimit : JsonVal
  verificationGasLimit : JsonVal
  preVerificationGas : JsonVal
  maxFeePerGas : JsonVal
  maxPriorityFeePerGas : JsonVal
  paymasterAndData : JsonVal
  signature : JsonVal
deriving DecidableEq

/-- Marshalling of one *hexutil.Big field: a nil pointer marshals to json
null, any other value to its EncodeBig string. -/
def marshalBigField : HexBig → JsonVal
  | none => .null
  | some v => .str (String.mk (EncodeBig v))

/-- Marshalling of a hexutil.Bytes field or of the fixed-width sender address
(both use the hexutil byte encoder): always a hex string. -/
def marshalBytesField (b : Bytes) : JsonVal :=
  .str (String.mk (encodeBytesChars b))

/-- encoding/json marshalling of the wire UserOperation of client.go. -/
def marshalUserOperation (op : UserOperation) : UserOperationJSON where
  sender := marshalBytesField op.Sender
  nonce := marshalBigField op.Nonce
  initCode := marshalBytesField op.InitCode
  callData := marshalBytesField op.CallData
  callGasLimit := marshalBigField op.CallGasLimit
  verificationGasLimit := marshalBigField op.VerificationGasLimit
  preVerificationGas := marshalBigField op.PreVerificationGas
  maxFeePerGas := marshalBigField op.MaxFeePerGas
  maxPriorityFeePerGas := marshalBigField op.MaxPriorityFeePerGas
  paymasterAndData := marshalBytesField op.PaymasterAndData
  signature := marshalBytesField op.Signature

/-- Unmarshalling of one *hexutil.Big field: json null sets the pointer to
nil; a string goes through the hexutil Big text decoder; a decoding failure
fails the whole unmarshal. -/
def unmarshalBigField : JsonVal → Option HexBig
  | .null => some none
  | .str s =>
    match decodeHexBig s with
    | some v => some (some v)
    | none => none

/-- Unmarshalling of a hexutil.Bytes field: must be a hex string of even
digit count with the prefix; json null is rejected by the hexutil
UnmarshalJSON method as a non-string value. -/
def unmarshalBytesField : JsonVal → Option Bytes
  | .null => none
  | .str s => decodeHexBytesChars s.data

/-- Unmarshalling of the 20 byte sender address (hexutil UnmarshalFixedJSON
on common.Address). -/
def unmarshalAddressField : JsonVal → Option Address
  | .null => none
  | .str s => decodeFixedBytesChars 20 s.data

/-- encoding/json unmarshalling of the wire UserOperation: every member is
decoded with the decoder of its field type and the first failure fails the
whole object. -/
def unmarshalUserOperation (j : UserOperationJSON) : Option UserOperation := do
  let sender ← unmarshalAddressField j.sender
  let nonce ← unmarshalBigField j.nonce
  let initCode ← unmarshalBytesField j.initCode
  let callData ← unmarshalBytesField j.callData
  let callGasLimit ← unmarshalBigField j.callGasLimit
  let verificationGasLimit ← unmarshalBigField j.verificationGasLimit
  let preVerificationGas ← unmarshalBigField j.preVerificationGas
  let maxFeePerGas ← unmarshalBigField j.maxFeePerGas
  let maxPriorityFeePerGas ← unmarshalBigField j.maxPriorityFeePerGas
  let paymasterAndData ← unmarshalBytesField j.paymasterAndData
  let signature ← unmarshalBytesField j.signature
  pure {
    Sender := sender
    Nonce := nonce
    InitCode := initCode
    CallData := callData
    CallGasLimit := callGasLimit
    VerificationGasLimit := verificationGasLimit
    PreVerificationGas := preVerificationGas
    MaxFeePerGas := maxFeePerGas
    MaxPriorityFeePerGas := maxPriorityFeePerGas
    PaymasterAndData := paymasterAndData
    Signature := signature }

/-- A byte string whose entries are bytes. -/
def ValidBytes (b : Bytes) : Prop := ∀ x ∈ b, x < 256

/-- A big-integer field value a bundler can carry on the wire: nil, or
nonnegative and below 2 to the 256 (the hexutil Big range). -/
def ValidBig : HexBig → Prop
  | none => True
  | some v => 0 ≤ v ∧ v < 2 ^ 256

instance (b : HexBig) : Decidable (ValidBig b) :=
  match b with
  | none => .isTrue trivial
  | some v => inferInstanceAs (Decidable (0 ≤ v ∧ v < 2 ^ 256))

/-- Validity of a wire user operation: a 20 byte sender consisting of bytes,
byte strings consisting of bytes, and numeric fields in the hexutil range. -/
def UserOperation.WellFormed (op : UserOperation) : Prop :=
  op.Sender.length = 20 ∧ ValidBytes op.Sender ∧
  ValidBytes op.InitCode ∧ ValidBytes op.CallData ∧
  ValidBytes op.PaymasterAndData ∧ ValidBytes op.Signature ∧
  ValidBig op.Nonce ∧ ValidBig op.CallGasLimit ∧ ValidBig op.VerificationGasLimit ∧
  ValidBig op.PreVerificationGas ∧ ValidBig op.MaxFeePerGas ∧
  ValidBig op.MaxPriorityFeePerGas

theorem unmarshalBigField_marshalBigField {b : HexBig} (h : ValidBig b) :
    unmarshalBigField (marshalBigField b) = some b := by
  cases b with
  | none => rfl
  | some v =>
    obtain ⟨h0, hlt⟩ := h
    simp [marshalBigField, unmarshalBigField, decodeHexBig,
      decodeHexBigChars_EncodeBig h0 hlt]

theorem unmarshalBytesField_marshalBytesField {b : Bytes} (h : ValidBytes b) :
    unmarshalBytesField (marshalBytesField b) = some b := by
  simp [marshalBytesField, unmarshalBytesField, decodeHexBytesChars_encodeBytesChars b h]

theorem unmarshalAddressField_marshalBytesField {a : Address} (h20 : a.length = 20)
    (h : ValidBytes a) :
    unmarshalAddressField (marshalBytesField a) = some a := by
  simp [marshalBytesField, unmarshalAddressField,
    decodeFixedBytesChars_encodeBytesChars a 20 h20 h]

/-- C5: wire round trip of a user operation: marshalling a well-formed wire
operation to its JSON object (addresses and byte strings as 0x-prefixed hex,
big integers as 0x-prefixed minimal hex strings, nil numerics as null) and
unmarshalling it back yields the operation unchanged field for field; in
particular no big-integer field below 2 to the 256 loses precision. -/
theorem userOperation_wire_roundtrip (op : UserOperation) (h : op.WellFormed) :
    unmarshalUserOperation (marshalUserOperation op) = some op := by
  obtain ⟨hs20, hs, hic, hcd, hpd, hsig, hn, hcgl, hvgl, hpvg, hmf, hmpf⟩ := h
  simp [marshalUserOperation, unmarshalUserOperation,
    unmarshalAddressField_marshalBytesField hs20 hs,
    unmarshalBigField_marshalBigField hn,
    unmarshalBigField_marshalBigField hcgl,
    unmarshalBigField_marshalBigField hvgl,
    unmarshalBigField_marshalBigField hpvg,
    unmarshalBigField_marshalBigField hmf,
    unmarshalBigField_marshalBigField hmpf,
    unmarshalBytesField_marshalBytesField hic,
    unmarshalBytesField_marshalBytesField hcd,
    unmarshalBytesField_marshalBytesField hpd,
    unmarshalBytesField_marshalBytesField hsig]

/-- OverrideAccount of client.go: optional per-address state overrides
supplied to gas estimation; the storage maps are association lists. -/
structure OverrideAccount where
  Nonce : Option Nat
  Code : Option Bytes
  Balance : Option Int
  State : Option (List (Hash × Hash))
  StateDiff : Option (List (Hash × Hash))
deriving DecidableEq

/-- gas.GasEstimates of the stackup bundler package, an opaque pass-through
result for this client; modelled with its big-integer estimate fields. -/
structure GasEstimates where
  PreVerificationGas : Option Int
  VerificationGasLimit : Option Int
  CallGasLimit : Option Int
deriving DecidableEq

/-- The zero value of GasEstimates, which json unmarshalling of a null result
leaves in the pre-allocated target. -/
def emptyGasEstimates : GasEstimates := ⟨none, none, none⟩

/-- filter.UserOperationReceipt of the stackup bundler package, an opaque
pass-through result keyed by the user operation hash; modelled with a
representative subset of its fields. -/
structure UserOperationReceipt where
  UserOpHash : Hash
  Sender : Address
  Nonce : Option Int
  Success : Bool
  ActualGasCost : Option Int
  ActualGasUsed : Option Int
deriving DecidableEq

/-- The zero-valued receipt: what json unmarshalling of a null result leaves
in the pre-allocated receipt of GetUserOperationReceipt; the explicit absent
value of the protocol. -/
def emptyReceipt : UserOperationReceipt :=
  ⟨zeroHash, zeroAddress, none, false, none, none⟩

/-- filter.HashLookupResult of the stackup bundler package, an opaque
pass-through result; modelled with a representative subset of its fields. -/
structure HashLookupResult where
  UserOperation : Option Userop.UserOperation
  EntryPoint : Address
  BlockNumber : Option Int
  BlockHash : Hash
  TransactionHash : Hash
deriving DecidableEq

/-- The zero-valued lookup result, the explicit absent value of
GetUserOperationByHash. -/
def emptyLookupResult : HashLookupResult :=
  ⟨none, zeroAddress, none, zeroHash, zeroHash⟩

/-- Errors a call can surface: transport-level failures including
cancellation, server-reported JSON-RPC errors, and decoding failures. -/
inductive RpcError where
  | transport (msg : String)
  | server (code : Int) (msg : String)
  | decode (msg : String)
deriving DecidableEq

/-- One positional JSON-RPC parameter as this client sends it. -/
inductive Param where
  | userOp (op : Option Userop.UserOperation)
  | address (a : Address)
  | hash (h : Hash)
  | overrides (m : List (Address × OverrideAccount))
  | mode (s : String)
deriving DecidableEq

/-- A JSON-RPC request: the remote method name and its positional
parameters. -/
structure RpcRequest where
  method : String
  params : List Param
deriving DecidableEq

/-- The result shapes a bundler server can answer with, already parsed from
raw JSON: null, a JSON string, or the typed objects and arrays the client
expects. A shape that does not match the target type of a call is a decoding
failure, exactly as json unmarshalling reports it. -/
inductive WireValue where
  | null
  | str (s : String)
  | ops (l : List (Option UserOperation))
  | receipt (r : UserOperationReceipt)
  | lookup (r : HashLookupResult)
  | addresses (l : List Address)
  | gas (g : GasEstimates)
deriving DecidableEq

/-- The transport handle (the rpc.Client of go-ethereum): a call either fails
or produces a parsed result shape. -/
def Transport := RpcRequest → Except RpcError WireValue

/-- RpcClient of client.go: the struct whose only field is the transport. -/
structure RpcClient where
  c : Transport

/-- NewClient of client.go: wrap an existing transport handle. -/
def NewClient (c : Transport) : RpcClient := ⟨c⟩

/-- CallContext of the go-ethereum rpc package as this client uses it: issue
exactly one request on the transport, surface a failure as the returned
error, and on success unmarshal the result into the target of the call. The
first component records the requests issued. -/
def callContext (t : Transport) (dec : WireValue → Except RpcError α)
    (method : String) (params : List Param) :
    List RpcRequest × Except RpcError α :=
  ([⟨method, params⟩],
   match t ⟨method, params⟩ with
   | .error e => .error e
   | .ok v => dec v)

/-- Unmarshalling a result into a common.Hash target: a json string of
exactly 64 hex digits with the prefix; anything else, null included, is
rejected by UnmarshalFixedJSON. -/
def decodeHashResult : WireValue → Except RpcError Hash
  | .str s =>
    match decodeFixedBytes 32 s with
    | some h => .ok h
    | none => .error (.decode "invalid hash string")
  | _ => .error (.decode "cannot unmarshal into common.Hash")

/-- Unmarshalling into the pre-allocated gas.GasEstimates target: the typed
object passes through and json null leaves the zero value. -/
def decodeGasResult : WireValue → Except RpcError GasEstimates
  | .gas g => .ok g
  | .null => .ok emptyGasEstimates
  | _ => .error (.decode "cannot unmarshal into gas.GasEstimates")

/-- Unmarshalling into the pre-allocated receipt target: the typed object
passes through and json null leaves the zero value. -/
def decodeReceiptResult : WireValue → Except RpcError UserOperationReceipt
  | .receipt r => .ok r
  | .null => .ok emptyReceipt
  | _ => .error (.decode "cannot unmarshal into UserOperationReceipt")

/-- Unmarshalling into the pre-allocated lookup target: the typed object
passes through and json null leaves the zero value. -/
def decodeLookupResult : WireValue → Except RpcError HashLookupResult
  | .lookup r => .ok r
  | .null => .ok emptyLookupResult
  | _ => .error (.decode "cannot unmarshal into HashLookupResult")

/-- Unmarshalling into the entry point address slice: json null leaves the
nil slice. -/
def decodeAddressesResult : WireValue → Except RpcError (List Address)
  | .addresses l => .ok l
  | .null => .ok []
  | _ => .error (.decode "cannot unmarshal into address slice")

/-- Unmarshalling into the hexutil.Big chain id target: a json string the
hexutil Big decoder accepts; null is rejected as a non-string value. -/
def decodeChainIdResult : WireValue → Except RpcError Int
  | .str s =>
    match decodeHexBig s with
    | some v => .ok v
    | none => .error (.decode "invalid hex number")
  | _ => .error (.decode "cannot unmarshal into hexutil.Big")

/-- Unmarshalling into a plain Go string target: a json string is taken as is
and json null leaves the zero value, the empty string. -/
def decodeStringResult : WireValue → Except RpcError String
  | .str s => .ok s
  | .null => .ok ""
  | _ => .error (.decode "cannot unmarshal into string")

/-- Unmarshalling into the wire operation slice of BundlerDumpMempool: json
null leaves the nil slice. -/
def decodeOpsResult : WireValue → Except RpcError (List (Option UserOperation))
  | .ops l => .ok l
  | .null => .ok []
  | _ => .error (.decode "cannot unmarshal into UserOperation slice")

/-- A call made with a nil result target: the response body is discarded. -/
def decodeDiscard : WireValue → Except RpcError Unit :=
  fun _ => .ok ()

/-- SendUserOperation of client.go. -/
def RpcClient.SendUserOperation (c : RpcClient) (op : Option Userop.UserOperation)
    (entryPoint : Address) : List RpcRequest × Except RpcError Hash :=
  callContext c.c decodeHashResult "eth_sendUserOperation"
    [.userOp op, .address entryPoint]

/-- EstimateUserOperationGas of client.go: two positional parameters; the
returned pointer is nil exactly when an error is returned. -/
def RpcClient.EstimateUserOperationGas (c : RpcClient)
    (op : Option Userop.UserOperation) (entryPoint : Address) :
    List RpcRequest × Except RpcError GasEstimates :=
  callContext c.c decodeGasResult "eth_estimateUserOperationGas"
    [.userOp op, .address entryPoint]

/-- EstimateUserOperationGasWithOverrides of client.go: the same remote
method with the state override mapping as a third positional parameter. -/
def RpcClient.EstimateUserOperationGasWithOverrides (c : RpcClient)
    (op : Option Userop.UserOperation) (entryPoint : Address)
    (stateOverrides : List (Address × OverrideAccount)) :
    List RpcRequest × Except RpcError GasEstimates :=
  callContext c.c decodeGasResult "eth_estimateUserOperationGas"
    [.userOp op, .address entryPoint, .overrides stateOverrides]

/-- GetUserOperationReceipt of client.go. -/
def RpcClient.GetUserOperationReceipt (c : RpcClient) (userOpHash : Hash) :
    List RpcRequest × Except RpcError UserOperationReceipt :=
  callContext c.c decodeReceiptResult "eth_getUserOperationReceipt" [.hash userOpHash]

/-- GetUserOperationByHash of client.go. -/
def RpcClient.GetUserOperationByHash (c : RpcClient) (userOpHash : Hash) :
    List RpcRequest × Except RpcError HashLookupResult :=
  callContext c.c decodeLookupResult "eth_getUserOperationByHash" [.hash userOpHash]

/-- SupportedEntryPoints of client.go: no parameters. -/
def RpcClient.SupportedEntryPoints (c : RpcClient) :
    List RpcRequest × Except RpcError (List Address) :=
  callContext c.c decodeAddressesResult "eth_supportedEntryPoints" []

/-- ChainId of client.go: the hex string response decoded as hexutil.Big. -/
def RpcClient.ChainId (c : RpcClient) : List RpcRequest × Except RpcError Int :=
  callContext c.c decodeChainIdResult "eth_chainId" []

/-- BundlerClearState of client.go: nil result target. -/
def RpcClient.BundlerClearState (c : RpcClient) :
    List RpcRequest × Except RpcError Unit :=
  callContext c.c decodeDiscard "debug_bundler_clearState" []

/-- BundlerDumpMempool of client.go: receive the wire operations and convert
each with ToUserOperation, preserving order. -/
def RpcClient.BundlerDumpMempool (c : RpcClient) (entryPoint : Address) :
    List RpcRequest × Except RpcError (List (Option Userop.UserOperation)) :=
  let r := callContext c.c decodeOpsResult "debug_bundler_dumpMempool"
    [.address entryPoint]
  (r.1,
   match r.2 with
   | .error e => .error e
   | .ok ops => .ok (ops.map UserOperation.ToUserOperation))

/-- BundlerSendBundleNow of client.go: an empty string result means no bundle
was sent and yields the nil hash pointer; otherwise the string goes through
common.HexToHash. -/
def RpcClient.BundlerSendBundleNow (c : RpcClient) :
    List RpcRequest × Except RpcError (Option Hash) :=
  let r := callContext c.c decodeStringResult "debug_bundler_sendBundleNow" []
  (r.1,
   match r.2 with
   | .error e => .error e
   | .ok result =>
     if result.length = 0 then .ok none else .ok (some (hexToHash result)))

/-- BundlerSetBundlingMode of client.go: one string parameter, nil result
target. -/
def RpcClient.BundlerSetBundlingMode (c : RpcClient) (m : String) :
    List RpcRequest × Except RpcError Unit :=
  callContext c.c decodeDiscard "debug_bundler_setBundlingMode" [.mode m]

/-- One client operation with its arguments, to state properties uniformly
over the whole surface of the client. -/
inductive Operation where
  | sendUserOperation (op : Option Userop.UserOperation) (entryPoint : Address)
  | estimateUserOperationGas (op : Option Userop.UserOperation) (entryPoint : Address)
  | estimateUserOperationGasWithOverrides (op : Option Userop.UserOperation)
      (entryPoint : Address) (stateOverrides : List (Address × OverrideAccount))
  | getUserOperationReceipt (userOpHash : Hash)
  | getUserOperationByHash (userOpHash : Hash)
  | supportedEntryPoints
  | chainId
  | bundlerClearState
  | bundlerDumpMempool (entryPoint : Address)
  | bundlerSendBundleNow
  | bundlerSetBundlingMode (m : String)
deriving DecidableEq

deriving instance DecidableEq for Except

/-- The typed result of one operation. -/
inductive OpResult where
  | hash (r : Except RpcError Hash)
  | gas (r : Except RpcError GasEstimates)
  | receipt (r : Except RpcError UserOperationReceipt)
  | lookup (r : Except RpcError HashLookupResult)
  | addresses (r : Except RpcError (List Address))
  | chainId (r : Except RpcError Int)
  | unit (r : Except RpcError Unit)
  | mempool (r : Except RpcError (List (Option Userop.UserOperation)))
  | bundleHash (r : Except RpcError (Option Hash))
deriving DecidableEq

/-- Dispatch of one operation to the corresponding client method, recording
the issued requests alongside the typed result. -/
def execOp (c : RpcClient) : Operation → List RpcRequest × OpResult
  | .sendUserOperation op ep =>
    let r := c.SendUserOperation op ep
    (r.1, .hash r.2)
  | .estimateUserOperationGas op ep =>
    let r := c.EstimateUserOperationGas op ep
    (r.1, .gas r.2)
  | .estimateUserOperationGasWithOverrides op ep ov =>
    let r := c.EstimateUserOperationGasWithOverrides op ep ov
    (r.1, .gas r.2)
  | .getUserOperationReceipt h =>
    let r := c.GetUserOperationReceipt h
    (r.1, .receipt r.2)
  | .getUserOperationByHash h =>
    let r := c.GetUserOperationByHash h
    (r.1, .lookup r.2)
  | .supportedEntryPoints =>
    let r := c.SupportedEntryPoints
    (r.1, .addresses r.2)
  | .chainId =>
    let r := c.ChainId
    (r.1, .chainId r.2)
  | .bundlerClearState =>
    let r := c.BundlerClearState
    (r.1, .unit r.2)
  | .bundlerDumpMempool ep =>
    let r := c.BundlerDumpMempool ep
    (r.1, .mempool r.2)
  | .bundlerSendBundleNow =>
    let r := c.BundlerSendBundleNow
    (r.1, .bundleHash r.2)
  | .bundlerSetBundlingMode m =>
    let r := c.BundlerSetBundlingMode m
    (r.1, .unit r.2)

/-- Whether an operation result carries exactly the given error and no value,
the nil-pointer-plus-error return of the Go methods. -/
def OpResult.IsError : OpResult → RpcError → Prop
  | .hash r, e => r = .error e
  | .gas r, e => r = .error e
  | .receipt r, e => r = .error e
  | .lookup r, e => r = .error e
  | .addresses r, e => r = .error e
  | .chainId r, e => r = .error e
  | .unit r, e => r = .error e
  | .mempool r, e => r = .error e
  | .bundleHash r, e => r = .error e

/-- One operation together with the client as the method leaves it: every Go
method body only reads the transport field of the receiver and never assigns
through it, so the translated step hands the receiver on unchanged. -/
def execOpS (c : RpcClient) (o : Operation) :
    (List RpcRequest × OpResult) × RpcClient :=
  (execOp c o, c)

/-- Running a sequence of operations, each against the client state the
previous call left behind. -/
def runSeq : RpcClient → List Operation → List (List RpcRequest × OpResult)
  | _, [] => []
  | c, o :: rest => (execOpS c o).1 :: runSeq (execOpS c o).2 rest

instance (b : Bytes) : Decidable (ValidBytes b) :=
  inferInstanceAs (Decidable (∀ x ∈ b, x < 256))

instance (op : UserOperation) : Decidable op.WellFormed := by
  unfold UserOperation.WellFormed
  infer_instance

/-- A concrete well-formed wire user operation used as evaluation input. -/
def sampleWireOp : UserOperation where
  Sender := List.replicate 20 170
  Nonce := some 0
  InitCode := []
  CallData := [1, 2, 3]
  CallGasLimit := some 1000000
  VerificationGasLimit := some 65536
  PreVerificationGas := some 21000
  MaxFeePerGas := some 0
  MaxPriorityFeePerGas := none
  PaymasterAndData := []
  Signature := [222, 173, 190, 239]

set_option maxRecDepth 4000 in
/-- Witness for the wire round trip at a concrete operation. -/
theorem userOperation_wire_roundtrip_witness :
    sampleWireOp.WellFormed ∧
    unmarshalUserOperation (marshalUserOperation sampleWireOp) = some sampleWireOp :=
  ⟨by decide, userOperation_wire_roundtrip sampleWireOp (by decide)⟩

/-- C1: on a successful transport call of debug_bundler_sendBundleNow whose
result is a string, an empty string yields the nil hash pointer with no
error and no zero hash, and a non-empty string yields a pointer to the
32 byte hash decoded from it by common.HexToHash. -/
theorem bundlerSendBundleNow_absent_or_hash (c : RpcClient) (s : String)
    (h : c.c ⟨"debug_bundler_sendBundleNow", []⟩ = .ok (.str s)) :
    (s.length = 0 → (c.BundlerSendBundleNow).2 = .ok none) ∧
    (s.length ≠ 0 →
      (c.BundlerSendBundleNow).2 = .ok (some (hexToHash s)) ∧
      (hexToHash s).length = 32) := by
  constructor
  · intro hs
    simp [RpcClient.BundlerSendBundleNow, callContext, h, decodeStringResult, hs]
  · intro hs
    refine ⟨?_, hexToHash_length s⟩
    simp [RpcClient.BundlerSendBundleNow, callContext, h, decodeStringResult, hs]

/-- Witness for the bundle submission result at concrete transports: a
server answering the empty string gives the absent value, one answering a
hash string gives the decoded hash. -/
theorem bundlerSendBundleNow_absent_or_hash_witness :
    ((NewClient fun _ => .ok (.str "")).BundlerSendBundleNow).2 = .ok none ∧
    ((NewClient fun _ => .ok (.str "0xab")).BundlerSendBundleNow).2 =
      .ok (some (hexToHash "0xab")) :=
  ⟨(bundlerSendBundleNow_absent_or_hash (NewClient fun _ => .ok (.str "")) "" rfl).1 rfl,
   ((bundlerSendBundleNow_absent_or_hash (NewClient fun _ => .ok (.str "0xab")) "0xab"
      rfl).2 (by decide)).1⟩

/-- C2: a null result, how the server answers for an unknown hash, makes
GetUserOperationReceipt return the empty receipt with no error and
GetUserOperationByHash the empty lookup result; a populated receipt passes
through unchanged, so the absent value is distinguishable from any receipt
differing from the zero value. -/
theorem getUserOperation_absent :
    (∀ (c : RpcClient) (h : Hash),
      c.c ⟨"eth_getUserOperationReceipt", [.hash h]⟩ = .ok .null →
      (c.GetUserOperationReceipt h).2 = .ok emptyReceipt) ∧
    (∀ (c : RpcClient) (h : Hash),
      c.c ⟨"eth_getUserOperationByHash", [.hash h]⟩ = .ok .null →
      (c.GetUserOperationByHash h).2 = .ok emptyLookupResult) ∧
    (∀ (c : RpcClient) (h : Hash) (r : UserOperationReceipt),
      c.c ⟨"eth_getUserOperationReceipt", [.hash h]⟩ = .ok (.receipt r) →
      (c.GetUserOperationReceipt h).2 = .ok r ∧
      (r ≠ emptyReceipt → (c.GetUserOperationReceipt h).2 ≠ .ok emptyReceipt)) := by
  refine ⟨?_, ?_, ?_⟩
  · intro c h hc
    simp [RpcClient.GetUserOperationReceipt, callContext, hc, decodeReceiptResult]
  · intro c h hc
    simp [RpcClient.GetUserOperationByHash, callContext, hc, decodeLookupResult]
  · intro c h r hc
    have hr : (c.GetUserOperationReceipt h).2 = .ok r := by
      simp [RpcClient.GetUserOperationReceipt, callContext, hc, decodeReceiptResult]
    refine ⟨hr, fun hne => ?_⟩
    rw [hr]
    intro hcon
    exact hne (by injection hcon)

/-- Witness for the absent receipt and lookup results at a concrete null
answering transport. -/
theorem getUserOperation_absent_witness :
    ((NewClient fun _ => .ok .null).GetUserOperationReceipt zeroHash).2 =
      .ok emptyReceipt ∧
    ((NewClient fun _ => .ok .null).GetUserOperationByHash zeroHash).2 =
      .ok emptyLookupResult :=
  ⟨getUserOperation_absent.1 (NewClient fun _ => .ok .null) zeroHash rfl,
   getUserOperation_absent.2.1 (NewClient fun _ => .ok .null) zeroHash rfl⟩

/-- C3: the wire conversion is field by field: converting a wire operation
yields exactly the canonical operation built directly from the same
big-integer values, the same address and the same byte strings, and
BundlerDumpMempool applies this conversion to every server-returned
element. -/
theorem toUserOperation_fieldwise :
    (∀ uo : UserOperation,
      UserOperation.ToUserOperation (some uo) = some {
        Sender := uo.Sender
        Nonce := uo.Nonce
        InitCode := uo.InitCode
        CallData := uo.CallData
        CallGasLimit := uo.CallGasLimit
        VerificationGasLimit := uo.VerificationGasLimit
        PreVerificationGas := uo.PreVerificationGas
        MaxFeePerGas := uo.MaxFeePerGas
        MaxPriorityFeePerGas := uo.MaxPriorityFeePerGas
        PaymasterAndData := uo.PaymasterAndData
        Signature := uo.Signature }) ∧
    (∀ (c : RpcClient) (ep : Address) (l : List (Option UserOperation)),
      c.c ⟨"debug_bundler_dumpMempool", [.address ep]⟩ = .ok (.ops l) →
      (c.BundlerDumpMempool ep).2 = .ok (l.map UserOperation.ToUserOperation)) := by
  constructor
  · intro uo
    rfl
  · intro c ep l hc
    simp [RpcClient.BundlerDumpMempool, callContext, hc, decodeOpsResult]

/-- Witness for the mempool conversion at a concrete transport. -/
theorem toUserOperation_fieldwise_witness :
    ((NewClient fun _ => .ok (.ops [some sampleWireOp])).BundlerDumpMempool
      zeroAddress).2 = .ok [UserOperation.ToUserOperation (some sampleWireOp)] :=
  toUserOperation_fieldwise.2 (NewClient fun _ => .ok (.ops [some sampleWireOp]))
    zeroAddress [some sampleWireOp] rfl

/-- C4: EstimateUserOperationGasWithOverrides sends
eth_estimateUserOperationGas with exactly the three positional parameters
operation, entry point and override mapping, while EstimateUserOperationGas
sends the same remote method with exactly the two positional parameters and
never includes an override mapping. -/
theorem estimateGas_params (c : RpcClient) (op : Option Userop.UserOperation)
    (ep : Address) (ov : List (Address × OverrideAccount)) :
    (c.EstimateUserOperationGasWithOverrides op ep ov).1 =
      [⟨"eth_estimateUserOperationGas", [.userOp op, .address ep, .overrides ov]⟩] ∧
    (c.EstimateUserOperationGas op ep).1 =
      [⟨"eth_estimateUserOperationGas", [.userOp op, .address ep]⟩] ∧
    (∀ req ∈ (c.EstimateUserOperationGas op ep).1, ∀ m, Param.overrides m ∉ req.params) := by
  refine ⟨rfl, rfl, ?_⟩
  intro req hreq m
  simp only [RpcClient.EstimateUserOperationGas, callContext, List.mem_singleton] at hreq
  subst hreq
  simp

/-- Witness for the parameter lists at a concrete client and arguments. -/
theorem estimateGas_params_witness :
    ((NewClient fun _ => .ok .null).EstimateUserOperationGas none zeroAddress).1 =
      [⟨"eth_estimateUserOperationGas", [.userOp none, .address zeroAddress]⟩] :=
  (estimateGas_params (NewClient fun _ => .ok .null) none zeroAddress []).2.1

/-- A concrete well-formed hash string of 64 hex digits. -/
def sampleHashStr : String :=
  "0x1111111111111111111111111111111111111111111111111111111111111111"

/-- C6: SendUserOperation issues exactly one call with the method
eth_sendUserOperation and the two positional parameters in order, and on a
successful response carrying a well-formed hash string it returns the
decoded hash, which has exactly 32 bytes. -/
theorem sendUserOperation_call (c : RpcClient) (op : Option Userop.UserOperation)
    (ep : Address) (s : String) (h : Hash)
    (hresp : c.c ⟨"eth_sendUserOperation", [.userOp op, .address ep]⟩ = .ok (.str s))
    (hdec : decodeFixedBytes 32 s = some h) :
    (c.SendUserOperation op ep).1 =
      [⟨"eth_sendUserOperation", [.userOp op, .address ep]⟩] ∧
    (c.SendUserOperation op ep).2 = .ok h ∧ h.length = 32 := by
  refine ⟨rfl, ?_, decodeFixedBytes_length hdec⟩
  simp [RpcClient.SendUserOperation, callContext, hresp, decodeHashResult, hdec]

/-- Witness for the submission call at a concrete transport and response. -/
theorem sendUserOperation_call_witness :
    ((NewClient fun _ => .ok (.str sampleHashStr)).SendUserOperation none
      zeroAddress).2 = .ok (List.replicate 32 17) :=
  (sendUserOperation_call (NewClient fun _ => .ok (.str sampleHashStr)) none
    zeroAddress sampleHashStr (List.replicate 32 17) rfl (by decide)).2.1

/-- C7: ChainId decodes the hex string response with the hexutil Big decoder
and returns the integer unchanged; in particular the decoder sends 0x1 to 1
and 0x89 to 137. -/
theorem chainId_decodes (c : RpcClient) (s : String) (v : Int)
    (hresp : c.c ⟨"eth_chainId", []⟩ = .ok (.str s))
    (hdec : decodeHexBig s = some v) :
    (c.ChainId).2 = .ok v ∧
    decodeHexBig "0x1" = some 1 ∧ decodeHexBig "0x89" = some 137 := by
  refine ⟨?_, by decide, by decide⟩
  simp [RpcClient.ChainId, callContext, hresp, decodeChainIdResult, hdec]

/-- Witness for the chain id decoding at a concrete transport. -/
theorem chainId_decodes_witness :
    ((NewClient fun _ => .ok (.str "0x89")).ChainId).2 = .ok 137 :=
  (chainId_decodes (NewClient fun _ => .ok (.str "0x89")) "0x89" 137 rfl (by decide)).1

/-- C8: failure pass-through: when the transport fails, every operation of
the client returns that error value unchanged, issues exactly one request
(no retry), and carries no result alongside the error, matching the
nil-pointer-plus-error returns of the Go methods. -/
theorem transport_error_passthrough (c : RpcClient) (o : Operation) (e : RpcError)
    (h : ∀ req, c.c req = .error e) :
    (execOp c o).1.length = 1 ∧ (execOp c o).2.IsError e := by
  cases o <;>
    simp [execOp, RpcClient.SendUserOperation, RpcClient.EstimateUserOperationGas,
      RpcClient.EstimateUserOperationGasWithOverrides, RpcClient.GetUserOperationReceipt,
      RpcClient.GetUserOperationByHash, RpcClient.SupportedEntryPoints, RpcClient.ChainId,
      RpcClient.BundlerClearState, RpcClient.BundlerDumpMempool,
      RpcClient.BundlerSendBundleNow, RpcClient.BundlerSetBundlingMode,
      callContext, h, OpResult.IsError]

/-- Witness for the failure pass-through at a concrete failing transport. -/
theorem transport_error_passthrough_witness :
    (execOp (NewClient fun _ => .error (.transport "connection refused"))
        Operation.chainId).1.length = 1 ∧
    (execOp (NewClient fun _ => .error (.transport "connection refused"))
        Operation.chainId).2.IsError (.transport "connection refused") :=
  transport_error_passthrough (NewClient fun _ => .error (.transport "connection refused"))
    Operation.chainId (.transport "connection refused") fun _ => rfl

/-- C9: statelessness: a step hands the client back unchanged, the behaviour
of every operation is determined solely by the transport handle fixed at
construction together with the arguments, and a sequence of calls is the
independent product of its elements, so any two calls are independent of
call order. -/
theorem client_stateless :
    (∀ (c : RpcClient) (o : Operation), (execOpS c o).2 = c) ∧
    (∀ c1 c2 : RpcClient, c1.c = c2.c →
      ∀ o : Operation, execOp c1 o = execOp c2 o) ∧
    (∀ (c : RpcClient) (ops : List Operation),
      runSeq c ops = ops.map fun o => execOp c o) := by
  refine ⟨fun c o => rfl, ?_, ?_⟩
  · rintro ⟨t1⟩ ⟨t2⟩ h o
    cases h
    rfl
  · intro c ops
    induction ops with
    | nil => rfl
    | cons o rest ih => simp [runSeq, execOpS, ih]

/-- Witness for statelessness at a concrete client and operation list. -/
theorem client_stateless_witness :
    ((execOpS (NewClient fun _ => .ok .null) Operation.chainId).2 =
      NewClient (fun _ => .ok .null)) ∧
    runSeq (NewClient fun _ => .ok .null)
        [Operation.chainId, Operation.supportedEntryPoints] =
      [execOp (NewClient fun _ => .ok .null) Operation.chainId,
       execOp (NewClient fun _ => .ok .null) Operation.supportedEntryPoints] :=
  ⟨client_stateless.1 (NewClient fun _ => .ok .null) Operation.chainId,
   client_stateless.2.2 (NewClient fun _ => .ok .null)
     [Operation.chainId, Operation.supportedEntryPoints]⟩

/-- A wire user operation whose numeric fields are all nil pointers. -/
def nilFieldWireOp : UserOperation :=
  ⟨[], none, [], [], none, none, none, none, none, [], []⟩

/-- C10: totality of the wire conversion and shape preservation of the dump:
a nil wire operation converts to nil rather than failing, nil big-number
fields map to nil integers, and BundlerDumpMempool returns a list of exactly
the length of the server list whose element i is the conversion of server
element i. -/
theorem toUserOperation_total :
    (UserOperation.ToUserOperation none = none) ∧
    (∀ uo : UserOperation, ∃ cu,
      UserOperation.ToUserOperation (some uo) = some cu ∧
      (uo.Nonce = none → cu.Nonce = none) ∧
      (uo.CallGasLimit = none → cu.CallGasLimit = none) ∧
      (uo.VerificationGasLimit = none → cu.VerificationGasLimit = none) ∧
      (uo.PreVerificationGas = none → cu.PreVerificationGas = none) ∧
      (uo.MaxFeePerGas = none → cu.MaxFeePerGas = none) ∧
      (uo.MaxPriorityFeePerGas = none → cu.MaxPriorityFeePerGas = none)) ∧
    (∀ (c : RpcClient) (ep : Address) (l : List (Option UserOperation)),
      c.c ⟨"debug_bundler_dumpMempool", [.address ep]⟩ = .ok (.ops l) →
      ∃ res, (c.BundlerDumpMempool ep).2 = .ok res ∧ res.length = l.length ∧
        ∀ i : Nat, res[i]? = (l[i]?).map UserOperation.ToUserOperation) := by
  refine ⟨rfl, ?_, ?_⟩
  · intro uo
    refine ⟨_, rfl, ?_, ?_, ?_, ?_, ?_, ?_⟩ <;>
      intro hnil <;> simp [HexBig.ToInt, hnil]
  · intro c ep l hc
    refine ⟨l.map UserOperation.ToUserOperation, ?_, by simp, fun i => ?_⟩
    · simp [RpcClient.BundlerDumpMempool, callContext, hc, decodeOpsResult]
    · exact List.getElem?_map UserOperation.ToUserOperation l i

/-- Witness for totality of the conversion at concrete inputs: a server list
holding a null element and an all-nil operation converts elementwise. -/
theorem toUserOperation_total_witness :
    (∃ res, ((NewClient fun _ => .ok (.ops [none, some nilFieldWireOp])).BundlerDumpMempool
      zeroAddress).2 = .ok res ∧ res.length = 2) ∧
    (∃ cu, UserOperation.ToUserOperation (some nilFieldWireOp) = some cu ∧
      cu.Nonce = none) := by
  constructor
  · obtain ⟨res, hres, hlen, _⟩ := toUserOperation_total.2.2
      (NewClient fun _ => .ok (.ops [none, some nilFieldWireOp])) zeroAddress
      [none, some nilFieldWireOp] rfl
    exact ⟨res, hres, hlen⟩
  · obtain ⟨cu, hcu, hn, _⟩ := toUserOperation_total.2.1 nilFieldWireOp
    exact ⟨cu, hcu, hn rfl⟩
